import Mathlib

/-!
Verification development for the repository-file manipulation subsystem of the
`pkgs` package-manager front-end (Go).  The Go code manipulates file contents
as strings; here a Go string is modelled as a Lean `String` and all character
level operations are carried out on its `data : List Char` field.  Line
oriented Go code (`strings.Split(content, "\n")` / `strings.Join(lines, "\n")`)
is modelled by `goSplitLines` / `goJoinLines` below, which are proved to be
mutually inverse.  Filesystem state, where needed, is modelled explicitly
(e.g. a directory is a list of `(path, content)` pairs in listing order, a
file that may not exist is an `Option String`).
-/

/-- Whitespace test used by Go `strings.TrimSpace` (the ASCII part of
`unicode.IsSpace`; the contents manipulated by this tool are ASCII). -/
def isGoSpace (c : Char) : Bool :=
  c = ' ' || c = '\t' || c = '\n' || c = '\x0b' || c = '\x0c' || c = '\r'

/-- Drop leading whitespace of a character list. -/
def trimLeftL (l : List Char) : List Char := l.dropWhile isGoSpace

/-- Drop trailing whitespace of a character list. -/
def trimRightL (l : List Char) : List Char := (l.reverse.dropWhile isGoSpace).reverse

/-- Model of Go `strings.TrimSpace`. -/
def goTrimSpace (s : String) : String := String.mk (trimRightL (trimLeftL s.data))

/-- Model of Go `strings.HasPrefix s pre`. -/
def goStartsWith (s pre : String) : Bool := pre.data.isPrefixOf s.data

/-- Model of Go `strings.HasSuffix s suf`. -/
def goEndsWith (s suf : String) : Bool := suf.data.isSuffixOf s.data

/-- Model of Go `strings.TrimPrefix s pre`: drops `pre` when it is a prefix,
otherwise returns `s` unchanged. -/
def goTrimLeading (s pre : String) : String :=
  if pre.data.isPrefixOf s.data then String.mk (s.data.drop pre.data.length) else s

/-- Model of Go `strings.Contains s sub` (substring occurrence). -/
def goContains (s sub : String) : Bool :=
  (List.range (s.data.length + 1)).any (fun i => sub.data.isPrefixOf (s.data.drop i))

/-- Split a character list at every occurrence of `c`
(the splitting behaviour of Go `strings.Split` with a one-character
separator: always returns at least one chunk, chunks do not contain `c`). -/
def splitChar (c : Char) : List Char → List (List Char)
  | [] => [[]]
  | x :: xs =>
    if x = c then [] :: splitChar c xs
    else
      match splitChar c xs with
      | [] => [[x]]
      | y :: ys => (x :: y) :: ys

/-- Interleave `c` between the chunks (the inverse of `splitChar`;
the behaviour of Go `strings.Join` with a one-character separator). -/
def joinChar (c : Char) : List (List Char) → List Char
  | [] => []
  | [x] => x
  | x :: y :: ys => x ++ c :: joinChar c (y :: ys)

/-- Model of Go `strings.Split(content, "\n")`. -/
def goSplitLines (s : String) : List String := (splitChar '\n' s.data).map String.mk

/-- Model of Go `strings.Join(lines, "\n")`. -/
def goJoinLines (ls : List String) : String :=
  String.mk (joinChar '\n' (ls.map String.data))

/-! ### The RedHat-like enable/disable transformation (`setRepoEnabled`, cmd/utils.go) -/

/-- Loop body of Go `setRepoEnabled` (cmd/utils.go, lines 161-205), translated
line by line.  `hdr` is the header string `"[" + repoID + "]"`, `value` the
enabled value (`"1"` or `"0"`), the two booleans are the mutable loop state
`inRepo` and `enabledFound`.  The Go exit branch additionally re-tests
`trimmedLine != "["+repoID+"]"`, which is redundant after the first branch
(`continue`) and therefore omitted; the trailing `if inRepo && !enabledFound`
after the loop is the `[]` case. -/
def setRepoGo (hdr value : String) : List String → Bool → Bool → List String
  | [], inRepo, enabledFound =>
    if inRepo && !enabledFound then ["enabled=" ++ value] else []
  | line :: rest, inRepo, enabledFound =>
    let t := goTrimSpace line
    if t = hdr then
      line :: setRepoGo hdr value rest true enabledFound
    else if inRepo && goStartsWith t "[" then
      (if !enabledFound then ["enabled=" ++ value] else []) ++
        line :: setRepoGo hdr value rest false enabledFound
    else if inRepo then
      if goStartsWith t "enabled=" then
        if !enabledFound then
          ("enabled=" ++ value) :: setRepoGo hdr value rest true true
        else setRepoGo hdr value rest true enabledFound
      else line :: setRepoGo hdr value rest true enabledFound
    else line :: setRepoGo hdr value rest false enabledFound

/-- Go `setRepoEnabled` at the level of line lists. -/
def setRepoEnabledLines (lines : List String) (repoID : String) (enable : Bool) :
    List String :=
  setRepoGo ("[" ++ repoID ++ "]") (if enable then "1" else "0") lines false false

/-- Go `setRepoEnabled(content, repoID, enable)` (cmd/utils.go, lines 151-208):
split on newlines, run the loop, join with newlines. -/
def setRepoEnabled (content repoID : String) (enable : Bool) : String :=
  goJoinLines (setRepoEnabledLines (goSplitLines content) repoID enable)

/-- Content-level step of `disableRepoDnfYum` (cmd/disable_repo.go, lines
338-351): compute `setRepoEnabled content name false`; when the result equals
the old content report already-disabled and perform no write (second component
`false`), otherwise write the new content (second component `true`). -/
def disableRepoDnfYumStep (content name : String) : String × Bool :=
  let newContent := setRepoEnabled content name false
  if newContent = content then (content, false) else (newContent, true)

/-- Content-level step of `enableRepoDnfYum` (cmd/enable_repo.go, lines
400-413), symmetric to `disableRepoDnfYumStep`. -/
def enableRepoDnfYumStep (content name : String) : String × Bool :=
  let newContent := setRepoEnabled content name true
  if newContent = content then (content, false) else (newContent, true)

/-! ### The repository file locator (`findRepoFile`, cmd/utils.go) -/

/-- The regular expression test of `findRepoFile`
(`(?m)^\[` + QuoteMeta(repoID) + `\]` matched against the content): some line
of the content starts with the literal characters `"[" + repoID + "]"`
(`(?m)^` anchors at the start of the content and after every newline). -/
def matchesRepoID (content repoID : String) : Bool :=
  (goSplitLines content).any (fun l => goStartsWith l ("[" ++ repoID ++ "]"))

/-- Go `findRepoFile` (cmd/utils.go, lines 212-234) over a modelled directory:
`files` is the glob result in listing order, each path paired with the file's
content (read errors are not modelled: every listed file is readable).
Returns the first file whose content matches the repo-ID pattern, with `true`,
or `("", false)` when none matches. -/
def findRepoFile (files : List (String × String)) (repoID : String) : String × Bool :=
  match files with
  | [] => ("", false)
  | (path, content) :: rest =>
    if matchesRepoID content repoID then (path, true) else findRepoFile rest repoID

/-! ### The RedHat-like section parsers -/

/-- One step of the header pattern `(?m)^\[(.*?)]` of `extractAllRepoSections`
(cmd/utils.go, line 53) on a single line: the line matches iff it starts with
`[` and carries a `]` later on the same line; the captured id is everything
strictly between the `[` and the first such `]`. -/
def lineHeaderId (l : List Char) : Option (List Char) :=
  match l with
  | '[' :: rest =>
    if rest.any (fun c => c = ']') then some (rest.takeWhile (fun c => c != ']'))
    else none
  | _ => none

/-- All header matches of `(?m)^\[(.*?)]` in order, as
`(start offset of the match, captured id)` pairs; `off` is the offset of the
first line in the enclosing content (`(?m)^` anchors exactly at the start of
each line, so scanning the split lines finds all matches). -/
def repoHeaderScan : List (List Char) → Nat → List (Nat × List Char)
  | [], _ => []
  | l :: ls, off =>
    match lineHeaderId l with
    | some id => (off, id) :: repoHeaderScan ls (off + l.length + 1)
    | none => repoHeaderScan ls (off + l.length + 1)

/-- Section slicing of `extractAllRepoSections`: the i-th section runs from
its own match start to the start of the next match, the last one to the end of
the content (`content[match[0]:sectionEnd]`). -/
def sectionsFrom (s : List Char) : List (Nat × List Char) → List (String × String)
  | [] => []
  | (p, id) :: rest =>
    let e := match rest with
      | [] => s.length
      | (q, _) :: _ => q
    (String.mk id, String.mk ((s.drop p).take (e - p))) :: sectionsFrom s rest

/-- Go `extractAllRepoSections(content)` (cmd/utils.go, lines 49-71) as an
ordered association list of `(repoID, section text)` pairs (the Go code stores
them in a map). -/
def extractAllRepoSections (content : String) : List (String × String) :=
  sectionsFrom content.data (repoHeaderScan (splitChar '\n' content.data) 0)

/-- Lookup in the Go map built by `extractAllRepoSections`: for duplicate ids
the last insertion wins. -/
def mapGet (m : List (String × String)) (k : String) : Option String :=
  (m.reverse.find? (fun kv => kv.1 == k)).map (fun kv => kv.2)

/-- Go `extractRepoSection(content, repoID)` (src/unnamed/part_006, lines
43-50).  The pattern is `(?m)^\[id\](.*?)(?:^\[|\z)` under RE2 semantics
without the `s` flag: `.` does not match a newline, so `(.*?)` cannot leave
the header line; after it the position is strictly inside that line, where the
multiline anchor `^` of the alternative `^\[` can never match.  Hence the
pattern matches iff the final line of the content (the text after the last
newline, or the whole content when it has no newline) starts with `[id]`, and
the whole match (`matches[0]`, which the Go code returns) is that final line.
Every other content yields no match and the empty string. -/
def extractRepoSection (content repoID : String) : String :=
  let lastLine := (splitChar '\n' content.data).getLastD []
  if ("[" ++ repoID ++ "]").data.isPrefixOf lastLine then String.mk lastLine else ""

/-! ### The Debian-like (apt) mutators -/

/-- Line condition of `disableRepoApt` (cmd/disable_repo.go, lines 302-307):
a line is commented out iff its trimmed form is non-empty and does not start
with `#`. -/
def disableAptShouldComment (line : String) : Bool :=
  !(goTrimSpace line).data.isEmpty && !goStartsWith (goTrimSpace line) "#"

/-- Per-line transformation of `disableRepoApt`. -/
def disableAptLine (line : String) : String :=
  if disableAptShouldComment line then "# " ++ line else line

/-- Content-level `disableRepoApt` (cmd/disable_repo.go, lines 286-323):
first component is the file content after the call (the joined transformed
lines; when nothing matched this equals the input), second component the
`modified` flag — when it is `false` the code reports "already disabled" and
performs no write. -/
def disableRepoAptContent (content : String) : String × Bool :=
  let lines := goSplitLines content
  (goJoinLines (lines.map disableAptLine), lines.any disableAptShouldComment)

/-- Line condition of `enableRepoApt` (cmd/enable_repo.go, lines 363-370):
a line is uncommented iff its trimmed form starts with `"# deb"` or `"#deb"`. -/
def enableAptShouldUncomment (line : String) : Bool :=
  goStartsWith (goTrimSpace line) "# deb" || goStartsWith (goTrimSpace line) "#deb"

/-- Per-line transformation of `enableRepoApt`:
`strings.TrimPrefix(strings.TrimPrefix(line, "# "), "#")`. -/
def enableAptLine (line : String) : String :=
  if enableAptShouldUncomment line then goTrimLeading (goTrimLeading line "# ") "#"
  else line

/-- Content-level `enableRepoApt` (cmd/enable_repo.go, lines 345-385), same
reading as `disableRepoAptContent`. -/
def enableRepoAptContent (content : String) : String × Bool :=
  let lines := goSplitLines content
  (goJoinLines (lines.map enableAptLine), lines.any enableAptShouldUncomment)

/-- Content written by `addRepoApt` (cmd/add_repo.go, line 128):
the repository line followed by a newline. -/
def addRepoAptContent (repoLine : String) : String := repoLine ++ "\n"

/-! ### The add operations with their existing-file / confirmation behaviour -/

/-- Outcome of an add operation: `written` is the content written to the
target file (`none` when no write happened), `prompted` records whether the
confirmation prompt was invoked, `ok` whether the operation succeeded
(`false` means "operation cancelled by user"). -/
structure AddResult where
  written : Option String
  prompted : Bool
  ok : Bool
deriving DecidableEq, Repr

/-- Go `addRepoApt(name, repoLine)` (cmd/add_repo.go, lines 99-129), with the
filesystem and prompt made explicit: `existing` is the current content of the
target file (`none` when it does not exist), `confirm` the answer the operator
would give to the confirmation prompt. -/
def addRepoApt (existing : Option String) (repoLine : String) (confirm : Bool) :
    AddResult :=
  match existing with
  | some content =>
    if goContains content repoLine then ⟨none, false, true⟩
    else if confirm then ⟨some (repoLine ++ "\n"), true, true⟩
    else ⟨none, true, false⟩
  | none => ⟨some (repoLine ++ "\n"), false, true⟩

/-- Go `addRepoDnfYum(name, url)` (cmd/add_repo.go, lines 132-201), with the
filesystem, the downloaded remote file and the prompt made explicit.  When
`url` ends in `.repo` the downloaded content is stored; otherwise a minimal
definition is synthesized.  In both branches an existing target file triggers
the confirmation prompt unconditionally — the existing content is never
compared with the content about to be written. -/
def addRepoDnfYum (existing : Option String) (name url downloaded : String)
    (confirm : Bool) : AddResult :=
  if goEndsWith url ".repo" then
    match existing with
    | some _ => if confirm then ⟨some downloaded, true, true⟩ else ⟨none, true, false⟩
    | none => ⟨some downloaded, false, true⟩
  else
    let repoContent :=
      "[" ++ name ++ "]\nname=" ++ name ++ "\nbaseurl=" ++ url ++
        "\nenabled=1\ngpgcheck=0\n"
    match existing with
    | some _ => if confirm then ⟨some repoContent, true, true⟩ else ⟨none, true, false⟩
    | none => ⟨some repoContent, false, true⟩

/-! ### The file download operation (`downloadFile`, cmd/utils.go) -/

/-- What the HTTP interaction of `downloadFile` can do: fail in transport,
answer with a non-OK status, fail midway through `io.Copy` after `part` bytes
were already copied, or succeed with the full body. -/
inductive FetchOutcome where
  | transportError : FetchOutcome
  | badStatus : String → FetchOutcome
  | copyError : String → FetchOutcome
  | ok : String → FetchOutcome
deriving DecidableEq, Repr

/-- Go `downloadFile(url, filepath)` (cmd/utils.go, lines 121-148) as a
transition on the destination file: `prior` is the destination's content
before the call (`none` when absent).  The code runs `os.Create` first, which
creates/truncates the destination to empty *before* the request, and no
failure path removes the file; `io.Copy` failure leaves the partial copy.
Result: destination content after the call, paired with success. -/
def downloadFile (prior : Option String) (fetch : FetchOutcome) :
    Option String × Bool :=
  let truncated : Option String := some ""
  match fetch with
  | FetchOutcome.transportError => (truncated, false)
  | FetchOutcome.badStatus _ => (truncated, false)
  | FetchOutcome.copyError part => (some part, false)
  | FetchOutcome.ok body => (some body, true)

/-! ### Inversion of `splitChar` and `joinChar` -/

theorem splitChar_ne_nil (c : Char) (l : List Char) : splitChar c l ≠ [] := by
  cases l with
  | nil => simp [splitChar]
  | cons x xs =>
    simp only [splitChar]
    split
    · simp
    · cases h : splitChar c xs <;> simp

theorem mem_splitChar (c : Char) (l : List Char) :
    ∀ x ∈ splitChar c l, c ∉ x := by
  induction l with
  | nil => intro x hx; simp [splitChar] at hx; simp [hx]
  | cons a l ih =>
    intro x hx
    by_cases hac : a = c
    · rw [splitChar, if_pos hac] at hx
      rcases List.mem_cons.mp hx with rfl | hx
      · simp
      · exact ih x hx
    · rw [splitChar, if_neg hac] at hx
      cases h : splitChar c l with
      | nil => exact absurd h (splitChar_ne_nil c l)
      | cons y ys =>
        rw [h] at hx
        rcases List.mem_cons.mp hx with rfl | hx
        · intro hmem
          rcases List.mem_cons.mp hmem with h1 | h1
          · exact hac h1.symm
          · exact ih y (h ▸ List.mem_cons_self y ys) h1
        · exact ih x (h ▸ List.mem_cons_of_mem y hx)

theorem splitChar_append_cons (c : Char) (xs ys : List Char) (h : c ∉ xs) :
    splitChar c (xs ++ c :: ys) = xs :: splitChar c ys := by
  induction xs with
  | nil => simp [splitChar]
  | cons a xs ih =>
    have hac : a ≠ c := fun he => h (he ▸ List.mem_cons_self a xs)
    have h' : c ∉ xs := fun hm => h (List.mem_cons_of_mem a hm)
    rw [List.cons_append, splitChar, if_neg hac, ih h']

theorem splitChar_eq_single (c : Char) (xs : List Char) (h : c ∉ xs) :
    splitChar c xs = [xs] := by
  induction xs with
  | nil => simp [splitChar]
  | cons a xs ih =>
    have hac : a ≠ c := fun he => h (he ▸ List.mem_cons_self a xs)
    have h' : c ∉ xs := fun hm => h (List.mem_cons_of_mem a hm)
    rw [splitChar, if_neg hac, ih h']

theorem joinChar_cons (c : Char) (x : List Char) (ls : List (List Char))
    (h : ls ≠ []) : joinChar c (x :: ls) = x ++ c :: joinChar c ls := by
  cases ls with
  | nil => exact absurd rfl h
  | cons y ys => rfl

theorem joinChar_splitChar (c : Char) (l : List Char) :
    joinChar c (splitChar c l) = l := by
  induction l with
  | nil => simp [splitChar, joinChar]
  | cons a l ih =>
    by_cases hac : a = c
    · rw [splitChar, if_pos hac,
        joinChar_cons c [] (splitChar c l) (splitChar_ne_nil c l)]
      simp [ih, hac]
    · rw [splitChar, if_neg hac]
      cases h : splitChar c l with
      | nil => exact absurd h (splitChar_ne_nil c l)
      | cons y ys =>
        rw [h] at ih
        cases ys with
        | nil => simpa [joinChar] using congrArg (a :: ·) ih
        | cons z zs =>
          rw [joinChar_cons c (a :: y) (z :: zs) (by simp), List.cons_append,
            ← joinChar_cons c y (z :: zs) (by simp), ih]

theorem splitChar_joinChar (c : Char) (ls : List (List Char)) (h1 : ls ≠ [])
    (h2 : ∀ x ∈ ls, c ∉ x) : splitChar c (joinChar c ls) = ls := by
  induction ls with
  | nil => exact absurd rfl h1
  | cons x ls ih =>
    cases ls with
    | nil =>
      rw [joinChar]
      exact splitChar_eq_single c x (h2 x (by simp))
    | cons y ys =>
      rw [joinChar_cons c x (y :: ys) (by simp),
        splitChar_append_cons c x (joinChar c (y :: ys)) (h2 x (by simp)),
        ih (by simp) (fun z hz => h2 z (List.mem_cons_of_mem x hz))]

theorem goJoin_goSplit (s : String) : goJoinLines (goSplitLines s) = s := by
  show String.mk (joinChar '\n' (((splitChar '\n' s.data).map String.mk).map String.data)) = s
  rw [List.map_map]
  have : (String.data ∘ String.mk) = id := funext fun l => rfl
  rw [this, List.map_id, joinChar_splitChar]

theorem goSplit_goJoin (ls : List String) (h1 : ls ≠ [])
    (h2 : ∀ l ∈ ls, '\n' ∉ l.data) : goSplitLines (goJoinLines ls) = ls := by
  show (splitChar '\n' (joinChar '\n' (ls.map String.data))).map String.mk = ls
  rw [splitChar_joinChar '\n' (ls.map String.data) (by simpa using h1)
    (by intro x hx; rcases List.mem_map.mp hx with ⟨l, hl, rfl⟩; exact h2 l hl)]
  rw [List.map_map]
  have : (String.mk ∘ String.data) = id := funext fun l => rfl
  rw [this, List.map_id]

theorem goSplitLines_ne_nil (s : String) : goSplitLines s ≠ [] := by
  intro h
  exact splitChar_ne_nil '\n' s.data (by simpa [goSplitLines] using h)

theorem mem_goSplitLines (s : String) :
    ∀ l ∈ goSplitLines s, '\n' ∉ l.data := by
  intro l hl
  rcases List.mem_map.mp hl with ⟨x, hx, rfl⟩
  exact mem_splitChar '\n' s.data x hx

/-! ### Facts about trimming and prefixes -/

theorem trimRightL_cons (a : Char) (t : List Char) :
    trimRightL (a :: t) =
      if trimRightL t = [] then (if isGoSpace a then [] else [a])
      else a :: trimRightL t := by
  have hrev : (a :: t).reverse = t.reverse ++ [a] := by simp
  rw [trimRightL, hrev, List.dropWhile_append]
  by_cases h : trimRightL t = []
  · have h' : t.reverse.dropWhile isGoSpace = [] := by
      have := congrArg List.reverse h
      simpa [trimRightL] using this
    rw [if_pos h, h']
    simp only [List.isEmpty_nil, if_pos rfl]
    by_cases ha : isGoSpace a
    · simp [List.dropWhile, ha]
    · simp [List.dropWhile, ha]
  · have h' : t.reverse.dropWhile isGoSpace ≠ [] := by
      intro hc
      exact h (by simp [trimRightL, hc])
    rw [if_neg h]
    have : (t.reverse.dropWhile isGoSpace).isEmpty = false := by
      simpa [List.isEmpty_iff] using h'
    rw [this]
    simp [trimRightL]

theorem trimRightL_cons_of_not_space (a : Char) (t : List Char)
    (h : isGoSpace a = false) : trimRightL (a :: t) = a :: trimRightL t := by
  rw [trimRightL_cons]
  by_cases ht : trimRightL t = []
  · rw [if_pos ht, if_neg (by simp [h]), ht]
  · rw [if_neg ht]

theorem trimLeftL_cons_of_not_space (a : Char) (t : List Char)
    (h : isGoSpace a = false) : trimLeftL (a :: t) = a :: t := by
  simp [trimLeftL, List.dropWhile_cons, h]

theorem trimRightL_isPre (l : List Char) : trimRightL l <+: l := by
  rw [trimRightL]
  have h := List.dropWhile_suffix (l := l.reverse) (p := isGoSpace)
  exact List.reverse_suffix.mp (by simpa only [List.reverse_reverse] using h)

theorem goTrimSpace_data (s : String) :
    (goTrimSpace s).data = trimRightL (trimLeftL s.data) := rfl

theorem goStartsWith_eq (s pre : String) :
    goStartsWith s pre = pre.data.isPrefixOf s.data := rfl

theorem hdrStarts (repoID : String) :
    goStartsWith ("[" ++ repoID ++ "]") "[" = true := by
  have h : ("[" ++ repoID ++ "]").data = '[' :: (repoID.data ++ [']']) := by
    simp [String.data_append]
  rw [goStartsWith_eq, h]
  simp [List.isPrefixOf_iff_prefix]

/-! ### Behaviour of the `setRepoEnabled` loop -/

theorem setRepoGo_outside (hdr value : String) :
    ∀ (ls : List String) (a : Bool), (∀ l ∈ ls, goTrimSpace l ≠ hdr) →
      setRepoGo hdr value ls false a = ls := by
  intro ls
  induction ls with
  | nil => intro a _; simp [setRepoGo]
  | cons l ls ih =>
    intro a h
    have hl := h l (List.mem_cons_self l ls)
    simp [setRepoGo, hl, ih a (fun x hx => h x (List.mem_cons_of_mem l hx))]

theorem setRepoGo_out_append (hdr value : String) :
    ∀ (pre ls : List String) (a : Bool), (∀ l ∈ pre, goTrimSpace l ≠ hdr) →
      setRepoGo hdr value (pre ++ ls) false a
        = pre ++ setRepoGo hdr value ls false a := by
  intro pre
  induction pre with
  | nil => intro ls a _; simp
  | cons l pre ih =>
    intro ls a h
    have hl := h l (List.mem_cons_self l pre)
    simp [setRepoGo, hl, ih ls a (fun x hx => h x (List.mem_cons_of_mem l hx))]

theorem setRepoGo_body_append (hdr value : String)
    (hh : goStartsWith hdr "[" = true) :
    ∀ (body ls : List String),
      (∀ l ∈ body, goStartsWith (goTrimSpace l) "[" = false ∧
        goStartsWith (goTrimSpace l) "enabled=" = false) →
      setRepoGo hdr value (body ++ ls) true false
        = body ++ setRepoGo hdr value ls true false := by
  intro body
  induction body with
  | nil => intro ls _; simp
  | cons l body ih =>
    intro ls h
    obtain ⟨h1, h2⟩ := h l (List.mem_cons_self l body)
    have hne : goTrimSpace l ≠ hdr := by
      intro he
      rw [he, hh] at h1
      exact absurd h1 (by simp)
    simp [setRepoGo, hne, h1, h2,
      ih ls (fun x hx => h x (List.mem_cons_of_mem l hx))]

theorem setRepoGo_inTT_idem (hdr value : String) :
    ∀ ls : List String, (∀ l ∈ ls, goTrimSpace l ≠ hdr) →
      setRepoGo hdr value (setRepoGo hdr value ls true true) true true
        = setRepoGo hdr value ls true true := by
  intro ls
  induction ls with
  | nil => intro _; simp [setRepoGo]
  | cons l ls ih =>
    intro h
    have hne := h l (List.mem_cons_self l ls)
    have htail := fun x hx => h x (List.mem_cons_of_mem l hx)
    by_cases hbr : goStartsWith (goTrimSpace l) "[" = true
    · have hout := setRepoGo_outside hdr value ls true htail
      simp [setRepoGo, hne, hbr, hout]
    · by_cases hen : goStartsWith (goTrimSpace l) "enabled=" = true
      · simpa [setRepoGo, hne, hbr, hen] using ih htail
      · simp [setRepoGo, hne, hbr, hen, ih htail]

theorem setRepoGo_inTF_idem (hdr value : String)
    (hh : goStartsWith hdr "[" = true)
    (hv1 : goTrimSpace ("enabled=" ++ value) = "enabled=" ++ value)
    (hv2 : goStartsWith ("enabled=" ++ value) "[" = false)
    (hv3 : goStartsWith ("enabled=" ++ value) "enabled=" = true) :
    ∀ ls : List String, (∀ l ∈ ls, goTrimSpace l ≠ hdr) →
      setRepoGo hdr value (setRepoGo hdr value ls true false) true false
        = setRepoGo hdr value ls true false := by
  have hvne : ("enabled=" ++ value) ≠ hdr := by
    intro he
    rw [he, hh] at hv2
    exact absurd hv2 (by simp)
  intro ls
  induction ls with
  | nil => simp [setRepoGo, hv1, hvne, hv2, hv3]
  | cons l ls ih =>
    intro h
    have hne := h l (List.mem_cons_self l ls)
    have htail := fun x hx => h x (List.mem_cons_of_mem l hx)
    by_cases hbr : goStartsWith (goTrimSpace l) "[" = true
    · have hout := setRepoGo_outside hdr value ls false htail
      have hout' := setRepoGo_outside hdr value ls true htail
      simp [setRepoGo, hne, hbr, hout, hout', hv1, hvne, hv2, hv3]
    · by_cases hen : goStartsWith (goTrimSpace l) "enabled=" = true
      · simp [setRepoGo, hne, hbr, hen, hv1, hvne, hv2, hv3,
          setRepoGo_inTT_idem hdr value ls htail]
      · simp [setRepoGo, hne, hbr, hen, ih htail]

theorem setRepoGo_start_idem (hdr value : String)
    (hh : goStartsWith hdr "[" = true)
    (hv1 : goTrimSpace ("enabled=" ++ value) = "enabled=" ++ value)
    (hv2 : goStartsWith ("enabled=" ++ value) "[" = false)
    (hv3 : goStartsWith ("enabled=" ++ value) "enabled=" = true) :
    ∀ ls : List String, ls.countP (fun l => goTrimSpace l == hdr) ≤ 1 →
      setRepoGo hdr value (setRepoGo hdr value ls false false) false false
        = setRepoGo hdr value ls false false := by
  intro ls
  induction ls with
  | nil => intro _; simp [setRepoGo]
  | cons l ls ih =>
    intro hcount
    by_cases hne : goTrimSpace l = hdr
    · have hzero : ls.countP (fun l => goTrimSpace l == hdr) = 0 := by
        rw [List.countP_cons, if_pos (by simp [hne])] at hcount
        omega
      have hnohdr : ∀ x ∈ ls, goTrimSpace x ≠ hdr := by
        intro x hx
        have := List.countP_eq_zero.mp hzero x hx
        simpa using this
      simp [setRepoGo, hne, setRepoGo_inTF_idem hdr value hh hv1 hv2 hv3 ls hnohdr]
    · have hcount' : ls.countP (fun l => goTrimSpace l == hdr) ≤ 1 := by
        rw [List.countP_cons, if_neg (by simp [hne])] at hcount
        omega
      simp [setRepoGo, hne, ih hcount']

theorem setRepoGo_cons_ne_nil (hdr value l : String) (ls : List String) (a : Bool) :
    setRepoGo hdr value (l :: ls) false a ≠ [] := by
  by_cases h1 : goTrimSpace l = hdr
  · simp [setRepoGo, h1]
  · simp [setRepoGo, h1]

theorem setRepoGo_no_newline (hdr value : String)
    (hv : '\n' ∉ ("enabled=" ++ value).data) :
    ∀ (ls : List String) (s a : Bool), (∀ l ∈ ls, '\n' ∉ l.data) →
      ∀ x ∈ setRepoGo hdr value ls s a, '\n' ∉ x.data := by
  intro ls
  induction ls with
  | nil =>
    intro s a _ x hx
    simp only [setRepoGo] at hx
    split at hx
    · rw [List.mem_singleton.mp hx]
      exact hv
    · simp at hx
  | cons l ls ih =>
    intro s a h x hx
    have hl := h l (List.mem_cons_self l ls)
    have htail := fun y hy => h y (List.mem_cons_of_mem l hy)
    by_cases h1 : goTrimSpace l = hdr
    · rw [setRepoGo] at hx
      simp only [if_pos h1] at hx
      rcases List.mem_cons.mp hx with rfl | hx'
      · exact hl
      · exact ih true a htail x hx'
    · by_cases h2 : (s && goStartsWith (goTrimSpace l) "[") = true
      · rw [setRepoGo] at hx
        simp only [if_neg h1, if_pos h2] at hx
        rcases List.mem_append.mp hx with hx' | hx'
        · split at hx'
          · rw [List.mem_singleton.mp hx']
            exact hv
          · simp at hx'
        · rcases List.mem_cons.mp hx' with rfl | hx''
          · exact hl
          · exact ih false a htail x hx''
      · by_cases h3 : s = true
        · by_cases h4 : goStartsWith (goTrimSpace l) "enabled=" = true
          · rw [setRepoGo] at hx
            simp only [if_neg h1, if_neg h2, if_pos h3] at hx
            rw [if_pos h4] at hx
            split at hx
            · rcases List.mem_cons.mp hx with rfl | hx'
              · exact hv
              · exact ih true true htail x hx'
            · exact ih true a htail x hx
          · rw [setRepoGo] at hx
            simp only [if_neg h1, if_neg h2, if_pos h3] at hx
            rw [if_neg h4] at hx
            rcases List.mem_cons.mp hx with rfl | hx'
            · exact hl
            · exact ih true a htail x hx'
        · rw [setRepoGo] at hx
          simp only [if_neg h1, if_neg h2, if_neg h3] at hx
          rcases List.mem_cons.mp hx with rfl | hx'
          · exact hl
          · exact ih false a htail x hx'

/-! ### Per-line facts about the Debian-like mutators -/

theorem goTrimSpace_data_of_head (a : Char) (r : List Char) (s : String)
    (hd : s.data = a :: r) (ha : isGoSpace a = false) :
    (goTrimSpace s).data = a :: trimRightL r := by
  rw [goTrimSpace_data, hd, trimLeftL_cons_of_not_space a r ha,
    trimRightL_cons_of_not_space a r ha]

theorem goStartsWith_true_iff (s pre : String) :
    goStartsWith s pre = true ↔ pre.data <+: s.data := by
  rw [goStartsWith_eq]
  exact List.isPrefixOf_iff_prefix

theorem disableAptLine_not_comment (l : String) :
    disableAptShouldComment (disableAptLine l) = false := by
  by_cases hc : disableAptShouldComment l = true
  · rw [disableAptLine, if_pos hc]
    have hd : ("# " ++ l).data = '#' :: ' ' :: l.data := rfl
    have htrim : (goTrimSpace ("# " ++ l)).data = '#' :: trimRightL (' ' :: l.data) :=
      goTrimSpace_data_of_head '#' (' ' :: l.data) _ hd (by decide)
    have hsw : goStartsWith (goTrimSpace ("# " ++ l)) "#" = true := by
      rw [goStartsWith_true_iff, htrim]
      show ['#'] <+: '#' :: trimRightL (' ' :: l.data)
      simp
    rw [disableAptShouldComment, hsw]
    simp
  · have hc' : disableAptShouldComment l = false := by simpa using hc
    rw [disableAptLine, if_neg (by simp [hc']), hc']

theorem disableAptLine_idem (l : String) :
    disableAptLine (disableAptLine l) = disableAptLine l := by
  rw [disableAptLine, if_neg (by simp [disableAptLine_not_comment l])]

theorem disableAptLine_no_newline (l : String) (h : '\n' ∉ l.data) :
    '\n' ∉ (disableAptLine l).data := by
  rw [disableAptLine]
  split
  · have hd : ("# " ++ l).data = '#' :: ' ' :: l.data := rfl
    rw [hd]
    intro hx
    rcases List.mem_cons.mp hx with h1 | h1
    · exact absurd h1.symm (by decide)
    · rcases List.mem_cons.mp h1 with h2 | h2
      · exact absurd h2.symm (by decide)
      · exact h h2
  · exact h

theorem goTrimLeading_data (s pre : String) :
    (goTrimLeading s pre).data = s.data.drop pre.data.length
      ∨ (goTrimLeading s pre).data = s.data := by
  rw [goTrimLeading]
  split
  · exact Or.inl rfl
  · exact Or.inr rfl

theorem enableAptLine_no_newline (l : String) (h : '\n' ∉ l.data) :
    '\n' ∉ (enableAptLine l).data := by
  rw [enableAptLine]
  split
  · rcases goTrimLeading_data (goTrimLeading l "# ") "#" with h1 | h1 <;>
      rcases goTrimLeading_data l "# " with h2 | h2 <;>
      rw [h1] <;> rw [h2] <;>
      intro hx <;>
      first
      | exact h (List.mem_of_mem_drop (List.mem_of_mem_drop hx))
      | exact h (List.mem_of_mem_drop hx)
      | exact h hx
  · exact h

theorem enableAptLine_of_head_d (s : String) (r : List Char)
    (hd : s.data = 'd' :: r) : enableAptLine s = s := by
  have ht : (goTrimSpace s).data = 'd' :: trimRightL r :=
    goTrimSpace_data_of_head 'd' r s hd (by decide)
  have hA : goStartsWith (goTrimSpace s) "# deb" = false := by
    rw [goStartsWith_eq, ht]
    show List.isPrefixOf ['#', ' ', 'd', 'e', 'b'] ('d' :: trimRightL r) = false
    simp [List.isPrefixOf, show ('#' == 'd') = false by decide]
  have hB : goStartsWith (goTrimSpace s) "#deb" = false := by
    rw [goStartsWith_eq, ht]
    show List.isPrefixOf ['#', 'd', 'e', 'b'] ('d' :: trimRightL r) = false
    simp [List.isPrefixOf, show ('#' == 'd') = false by decide]
  rw [enableAptLine, if_neg (by simp [enableAptShouldUncomment, hA, hB])]

theorem enableAptLine_idem (l : String) :
    enableAptLine (enableAptLine l) = enableAptLine l := by
  by_cases hc : enableAptShouldUncomment l = true
  · by_cases hp2 : ("# ").data.isPrefixOf l.data = true
    · obtain ⟨t0, ht0⟩ := List.isPrefixOf_iff_prefix.mp hp2
      have hld : l.data = '#' :: ' ' :: t0 := ht0.symm
      have htr : (goTrimSpace l).data = '#' :: trimRightL (' ' :: t0) :=
        goTrimSpace_data_of_head '#' (' ' :: t0) l hld (by decide)
      have hB : goStartsWith (goTrimSpace l) "#deb" = false := by
        rw [goStartsWith_eq, htr]
        show List.isPrefixOf ['#', 'd', 'e', 'b'] ('#' :: trimRightL (' ' :: t0)) = false
        rw [trimRightL_cons]
        by_cases h0 : trimRightL t0 = []
        · rw [if_pos h0]
          simp [List.isPrefixOf]
        · rw [if_neg h0]
          simp [List.isPrefixOf, show ('d' == ' ') = false by decide]
      have hA : goStartsWith (goTrimSpace l) "# deb" = true := by
        have := hc
        simp [enableAptShouldUncomment, hB] at this
        exact this
      have hApre : ['#', ' ', 'd', 'e', 'b'] <+: '#' :: trimRightL (' ' :: t0) := by
        have h1 := (goStartsWith_true_iff _ _).mp hA
        rw [htr] at h1
        exact h1
      obtain ⟨-, htail⟩ := List.cons_prefix_cons.mp hApre
      rw [trimRightL_cons] at htail
      by_cases h0 : trimRightL t0 = []
      · rw [if_pos h0] at htail
        simp [show isGoSpace ' ' = true by decide] at htail
      · rw [if_neg h0] at htail
        obtain ⟨-, htail2⟩ := List.cons_prefix_cons.mp htail
        have hdeb : ['d', 'e', 'b'] <+: t0 := htail2.trans (trimRightL_isPre t0)
        obtain ⟨t, ht⟩ := hdeb
        have hld2 : l.data = '#' :: ' ' :: 'd' :: 'e' :: 'b' :: t := by
          rw [hld, ← ht]
          rfl
        have hinner : goTrimLeading l "# " = String.mk ('d' :: 'e' :: 'b' :: t) := by
          rw [goTrimLeading, if_pos hp2, hld2]
          rfl
        have houter :
            goTrimLeading (String.mk ('d' :: 'e' :: 'b' :: t)) "#"
              = String.mk ('d' :: 'e' :: 'b' :: t) := by
          rw [goTrimLeading, if_neg]
          show ¬ (List.isPrefixOf ['#'] ('d' :: 'e' :: 'b' :: t) = true)
          simp [List.isPrefixOf, show ('#' == 'd') = false by decide]
        have hfl : enableAptLine l = String.mk ('d' :: 'e' :: 'b' :: t) := by
          rw [enableAptLine, if_pos hc, hinner, houter]
        rw [hfl]
        exact enableAptLine_of_head_d _ ('e' :: 'b' :: t) rfl
    · by_cases hp1 : ("#").data.isPrefixOf l.data = true
      · obtain ⟨t0, ht0⟩ := List.isPrefixOf_iff_prefix.mp hp1
        have hld : l.data = '#' :: t0 := ht0.symm
        have htr : (goTrimSpace l).data = '#' :: trimRightL t0 :=
          goTrimSpace_data_of_head '#' t0 l hld (by decide)
        have hA : goStartsWith (goTrimSpace l) "# deb" = false := by
          by_contra hA'
          have hA'' : goStartsWith (goTrimSpace l) "# deb" = true := by
            simpa using hA'
          have hApre : ['#', ' ', 'd', 'e', 'b'] <+: '#' :: trimRightL t0 := by
            have h1 := (goStartsWith_true_iff _ _).mp hA''
            rw [htr] at h1
            exact h1
          obtain ⟨-, htail⟩ := List.cons_prefix_cons.mp hApre
          have hsp : [' ', 'd', 'e', 'b'] <+: t0 := htail.trans (trimRightL_isPre t0)
          obtain ⟨t, ht⟩ := hsp
          have : ("# ").data.isPrefixOf l.data = true := by
            rw [hld, ← ht]
            show List.isPrefixOf ['#', ' '] ('#' :: ' ' :: ('d' :: 'e' :: 'b' :: t)) = true
            simp [List.isPrefixOf]
          exact hp2 this
        have hB : goStartsWith (goTrimSpace l) "#deb" = true := by
          have := hc
          simp [enableAptShouldUncomment, hA] at this
          exact this
        have hBpre : ['#', 'd', 'e', 'b'] <+: '#' :: trimRightL t0 := by
          have h1 := (goStartsWith_true_iff _ _).mp hB
          rw [htr] at h1
          exact h1
        obtain ⟨-, htail⟩ := List.cons_prefix_cons.mp hBpre
        have hdeb : ['d', 'e', 'b'] <+: t0 := htail.trans (trimRightL_isPre t0)
        obtain ⟨t, ht⟩ := hdeb
        have hld2 : l.data = '#' :: 'd' :: 'e' :: 'b' :: t := by
          rw [hld, ← ht]
          rfl
        have hinner : goTrimLeading l "# " = l := by
          rw [goTrimLeading, if_neg (by simpa using hp2)]
        have houter : goTrimLeading l "#" = String.mk ('d' :: 'e' :: 'b' :: t) := by
          rw [goTrimLeading, if_pos hp1, hld2]
          rfl
        have hfl : enableAptLine l = String.mk ('d' :: 'e' :: 'b' :: t) := by
          rw [enableAptLine, if_pos hc, hinner, houter]
        rw [hfl]
        exact enableAptLine_of_head_d _ ('e' :: 'b' :: t) rfl
      · have hinner : goTrimLeading l "# " = l := by
          rw [goTrimLeading, if_neg (by simpa using hp2)]
        have houter : goTrimLeading l "#" = l := by
          rw [goTrimLeading, if_neg (by simpa using hp1)]
        have hfl : enableAptLine l = l := by
          rw [enableAptLine, if_pos hc, hinner, houter]
        rw [hfl]
        exact hfl
  · have hfl : enableAptLine l = l := by
      rw [enableAptLine, if_neg hc]
    rw [hfl]
    exact hfl

/-! ### Content-level consequences -/

theorem setRepoEnabled_second_fixpoint (content repoID : String) (enable : Bool)
    (h : (goSplitLines content).countP
      (fun l => goTrimSpace l == "[" ++ repoID ++ "]") ≤ 1) :
    setRepoEnabled (setRepoEnabled content repoID enable) repoID enable
      = setRepoEnabled content repoID enable := by
  have hne : goSplitLines content ≠ [] := goSplitLines_ne_nil content
  have hnl := mem_goSplitLines content
  cases enable with
  | true =>
    show goJoinLines (setRepoGo ("[" ++ repoID ++ "]") "1"
        (goSplitLines (goJoinLines (setRepoGo ("[" ++ repoID ++ "]") "1"
          (goSplitLines content) false false))) false false)
      = goJoinLines (setRepoGo ("[" ++ repoID ++ "]") "1"
          (goSplitLines content) false false)
    have hne2 : setRepoGo ("[" ++ repoID ++ "]") "1"
        (goSplitLines content) false false ≠ [] := by
      cases hL : goSplitLines content with
      | nil => exact absurd hL hne
      | cons l ls => exact setRepoGo_cons_ne_nil _ _ l ls false
    have hnl2 : ∀ x ∈ setRepoGo ("[" ++ repoID ++ "]") "1"
        (goSplitLines content) false false, '\n' ∉ x.data :=
      setRepoGo_no_newline _ "1" (by decide) (goSplitLines content) false false hnl
    rw [goSplit_goJoin _ hne2 hnl2,
      setRepoGo_start_idem ("[" ++ repoID ++ "]") "1" (hdrStarts repoID)
        (by decide) (by decide) (by decide) (goSplitLines content) h]
  | false =>
    show goJoinLines (setRepoGo ("[" ++ repoID ++ "]") "0"
        (goSplitLines (goJoinLines (setRepoGo ("[" ++ repoID ++ "]") "0"
          (goSplitLines content) false false))) false false)
      = goJoinLines (setRepoGo ("[" ++ repoID ++ "]") "0"
          (goSplitLines content) false false)
    have hne2 : setRepoGo ("[" ++ repoID ++ "]") "0"
        (goSplitLines content) false false ≠ [] := by
      cases hL : goSplitLines content with
      | nil => exact absurd hL hne
      | cons l ls => exact setRepoGo_cons_ne_nil _ _ l ls false
    have hnl2 : ∀ x ∈ setRepoGo ("[" ++ repoID ++ "]") "0"
        (goSplitLines content) false false, '\n' ∉ x.data :=
      setRepoGo_no_newline _ "0" (by decide) (goSplitLines content) false false hnl
    rw [goSplit_goJoin _ hne2 hnl2,
      setRepoGo_start_idem ("[" ++ repoID ++ "]") "0" (hdrStarts repoID)
        (by decide) (by decide) (by decide) (goSplitLines content) h]

theorem disableRepoAptContent_lines (content : String) :
    goSplitLines (disableRepoAptContent content).1
      = (goSplitLines content).map disableAptLine := by
  show goSplitLines (goJoinLines ((goSplitLines content).map disableAptLine)) = _
  apply goSplit_goJoin
  · simpa using goSplitLines_ne_nil content
  · intro x hx
    rcases List.mem_map.mp hx with ⟨y, hy, rfl⟩
    exact disableAptLine_no_newline y (mem_goSplitLines content y hy)

theorem enableRepoAptContent_lines (content : String) :
    goSplitLines (enableRepoAptContent content).1
      = (goSplitLines content).map enableAptLine := by
  show goSplitLines (goJoinLines ((goSplitLines content).map enableAptLine)) = _
  apply goSplit_goJoin
  · simpa using goSplitLines_ne_nil content
  · intro x hx
    rcases List.mem_map.mp hx with ⟨y, hy, rfl⟩
    exact enableAptLine_no_newline y (mem_goSplitLines content y hy)

theorem disableRepoAptContent_second (content : String) :
    (disableRepoAptContent (disableRepoAptContent content).1).2 = false
      ∧ (disableRepoAptContent (disableRepoAptContent content).1).1
        = (disableRepoAptContent content).1 := by
  have hl := disableRepoAptContent_lines content
  constructor
  · show ((goSplitLines (disableRepoAptContent content).1).any
      disableAptShouldComment) = false
    rw [hl, List.any_map]
    refine List.any_eq_false.mpr ?_
    intro x _
    simp [Function.comp, disableAptLine_not_comment]
  · show goJoinLines ((goSplitLines (disableRepoAptContent content).1).map
      disableAptLine) = _
    rw [hl, List.map_map]
    exact congrArg goJoinLines (List.map_congr_left (fun a _ => disableAptLine_idem a))

theorem enableRepoAptContent_second (content : String) :
    (enableRepoAptContent (enableRepoAptContent content).1).1
      = (enableRepoAptContent content).1 := by
  have hl := enableRepoAptContent_lines content
  show goJoinLines ((goSplitLines (enableRepoAptContent content).1).map
    enableAptLine) = _
  rw [hl, List.map_map]
  exact congrArg goJoinLines (List.map_congr_left (fun a _ => enableAptLine_idem a))

/-! ### Claim C1 -/

/-- C1: on a RedHat-like file whose content is exactly
`[docker-ce-stable]\nname=Docker\nbaseurl=https://x\nenabled=1\n`, the file is
located by the repo-ID match, disabling `docker-ce-stable` replaces the line
`enabled=1` by `enabled=0` leaving every other line byte-identical (and writes),
and disabling again returns the content unchanged, reporting already-disabled
and performing no write (second component `false`). -/
theorem c1_redhat_disable_scenario :
    matchesRepoID "[docker-ce-stable]\nname=Docker\nbaseurl=https://x\nenabled=1\n"
        "docker-ce-stable" = true
    ∧ disableRepoDnfYumStep
        "[docker-ce-stable]\nname=Docker\nbaseurl=https://x\nenabled=1\n"
        "docker-ce-stable"
      = ("[docker-ce-stable]\nname=Docker\nbaseurl=https://x\nenabled=0\n", true)
    ∧ disableRepoDnfYumStep
        "[docker-ce-stable]\nname=Docker\nbaseurl=https://x\nenabled=0\n"
        "docker-ce-stable"
      = ("[docker-ce-stable]\nname=Docker\nbaseurl=https://x\nenabled=0\n", false) := by
  refine ⟨by decide, by decide, by decide⟩

/-! ### Claim C2 -/

/-- C2: on the content `[a]\nenabled=1\n` (one well-formed section) the
full parse `extractAllRepoSections` maps id `a` to the whole section, while
the single-id extraction `extractRepoSection` returns the empty string — the
two parsers disagree, because the Go pattern of `extractRepoSection` lacks the
`s` flag, so `(.*?)` cannot cross the newline after the header.  This
evaluates the code at the failing input of the code-bug report. -/
theorem c2_extract_section_disagreement :
    mapGet (extractAllRepoSections "[a]\nenabled=1\n") "a" = some "[a]\nenabled=1\n"
    ∧ extractRepoSection "[a]\nenabled=1\n" "a" = ""
    ∧ ("" : String) ≠ "[a]\nenabled=1\n" := by
  refine ⟨by decide, by decide, by decide⟩

/-! ### Claim C9 -/

/-- C9 counterexample: a transport error during download leaves an empty file
at the destination (`some ""`), not the destination untouched (`some "old"`):
the claim that failure leaves no content behind at the destination is false. -/
theorem c9_counterexample :
    downloadFile (some "old") FetchOutcome.transportError = (some "", false)
    ∧ (some "" : Option String) ≠ some "old" := by
  refine ⟨rfl, by decide⟩

/-- C9 amended: `downloadFile` creates/truncates the destination before the
request, so on a transport error or non-OK status the destination holds the
empty file, on an `io.Copy` failure it holds the partial copy — in every
failure case independently of the prior destination content; only on success
does it hold the full body.  The destination is never left untouched on
failure. -/
theorem c9_download_amended :
    ∀ (prior : Option String) (st part body : String),
      downloadFile prior FetchOutcome.transportError = (some "", false)
      ∧ downloadFile prior (FetchOutcome.badStatus st) = (some "", false)
      ∧ downloadFile prior (FetchOutcome.copyError part) = (some part, false)
      ∧ downloadFile prior (FetchOutcome.ok body) = (some body, true) := by
  intro prior st part body
  exact ⟨rfl, rfl, rfl, rfl⟩

/-! ### Claim C4 -/

/-- C4 counterexample: the RedHat-like add with name `a` and url `u` would
write `[a]\nname=a\nbaseurl=u\nenabled=1\ngpgcheck=0\n`; when the target file
exists with exactly that content, the operation still invokes the confirmation
prompt (`prompted = true`) and, on decline, cancels — contradicting the claim
that byte-identical content gives a no-op with no prompt. -/
theorem c4_counterexample :
    (addRepoDnfYum none "a" "u" "" false).written
        = some "[a]\nname=a\nbaseurl=u\nenabled=1\ngpgcheck=0\n"
    ∧ addRepoDnfYum (some "[a]\nname=a\nbaseurl=u\nenabled=1\ngpgcheck=0\n")
        "a" "u" "" false = ⟨none, true, false⟩ := by
  refine ⟨by decide, by decide⟩

/-- C4 amended: the Debian-like add performs no write and never invokes the
confirmation prompt, returning a no-op success, whenever the target file
exists with content byte-identical to the content that would be written (the
repository line followed by a newline); the RedHat-like add instead invokes
the confirmation prompt whenever the target file exists, regardless of
whether the existing content is byte-identical to the content that would be
written. -/
theorem c4_noop_add_amended :
    (∀ (repoLine : String) (confirm : Bool),
      addRepoApt (some (repoLine ++ "\n")) repoLine confirm = ⟨none, false, true⟩)
    ∧ (∀ (existing name url downloaded : String) (confirm : Bool),
        (addRepoDnfYum (some existing) name url downloaded confirm).prompted
          = true) := by
  constructor
  · intro repoLine confirm
    have hcont : goContains (repoLine ++ "\n") repoLine = true := by
      rw [goContains]
      refine List.any_eq_true.mpr ⟨0, List.mem_range.mpr (Nat.succ_pos _), ?_⟩
      simp [List.isPrefixOf_iff_prefix, String.data_append]
    simp [addRepoApt, hcont]
  · intro existing name url downloaded confirm
    by_cases hu : goEndsWith url ".repo" = true
    · cases confirm <;> simp [addRepoDnfYum, hu]
    · cases confirm <;> simp [addRepoDnfYum, hu]

/-! ### Claim C7 -/

/-- C7: the locator returns, for the first file in listing order whose content
has a line starting with the exact header `[id]`, that file's path with
`true`, and `("", false)` when no file matches (characterized through
`List.find?` on the per-file match test); moreover the match is exact: id
`foo` does not match a file containing only the header `[foo-extra]`, while it
does match a genuine `[foo]` header. -/
theorem c7_locator_exactness :
    (∀ (files : List (String × String)) (repoID : String),
      findRepoFile files repoID
        = ((files.find? fun pc => matchesRepoID pc.2 repoID).elim ("", false)
            fun pc => (pc.1, true)))
    ∧ matchesRepoID "[foo-extra]\nname=x\n" "foo" = false
    ∧ matchesRepoID "[foo]\nname=x\n" "foo" = true := by
  refine ⟨?_, by decide, by decide⟩
  intro files repoID
  induction files with
  | nil => rfl
  | cons pc rest ih =>
    obtain ⟨path, content⟩ := pc
    by_cases hm : matchesRepoID content repoID = true
    · simp [findRepoFile, List.find?_cons, hm]
    · simp [findRepoFile, List.find?_cons, hm, ih]

/-! ### Claim C5 -/

/-- C5 counterexample: on a file whose `[a]` header occurs on two lines,
enabling `a` twice changes the content again on the second call (the first
call inserts `enabled=1` into both `[a]` regions but leaves `enabledFound`
stale, so the second call drops the second inserted line), and the second call
performs a write instead of reporting already-enabled — refuting the
claimed idempotence for every file content. -/
theorem c5_counterexample :
    setRepoEnabled (setRepoEnabled "[a]\nx=1\n[b]\ny=2\n[a]\nz=3\n" "a" true) "a" true
      ≠ setRepoEnabled "[a]\nx=1\n[b]\ny=2\n[a]\nz=3\n" "a" true
    ∧ (enableRepoDnfYumStep
        (setRepoEnabled "[a]\nx=1\n[b]\ny=2\n[a]\nz=3\n" "a" true) "a").2 = true := by
  refine ⟨by decide, by decide⟩

/-- C5 amended: the Debian-like disable operation is idempotent for every
content (on the result of a first call the second call finds no line to
comment, reports already-disabled, performs no write and leaves the content
identical); the Debian-like enable operation leaves content identical under a
second call; and the RedHat-like enable/disable transformation is idempotent
(second call returns its input, hence the operation reports
already-in-desired-state and performs no write) for every content in which at
most one line trims to the exact header `[repoID]` — with duplicated headers
the second call can modify the content again, as the counterexample shows. -/
theorem c5_idempotence_amended :
    (∀ content : String,
      (disableRepoAptContent (disableRepoAptContent content).1).2 = false
      ∧ (disableRepoAptContent (disableRepoAptContent content).1).1
          = (disableRepoAptContent content).1)
    ∧ (∀ content : String,
      (enableRepoAptContent (enableRepoAptContent content).1).1
        = (enableRepoAptContent content).1)
    ∧ (∀ (content repoID : String) (enable : Bool),
      (goSplitLines content).countP
          (fun l => goTrimSpace l == "[" ++ repoID ++ "]") ≤ 1 →
      setRepoEnabled (setRepoEnabled content repoID enable) repoID enable
        = setRepoEnabled content repoID enable) :=
  ⟨disableRepoAptContent_second, enableRepoAptContent_second,
    setRepoEnabled_second_fixpoint⟩

/-- C5 witness: the hypothesis and conclusion of the amended idempotence at a
concrete single-header content. -/
theorem c5_idempotence_amended_witness :
    ((goSplitLines "[a]\nx=1\n").countP
        (fun l => goTrimSpace l == "[" ++ "a" ++ "]") ≤ 1)
    ∧ setRepoEnabled (setRepoEnabled "[a]\nx=1\n" "a" true) "a" true
        = setRepoEnabled "[a]\nx=1\n" "a" true :=
  ⟨by decide, c5_idempotence_amended.2.2 "[a]\nx=1\n" "a" true (by decide)⟩

/-! ### Claim C10 -/

/-- C10: whenever no line of the content trims to exactly `[repoID]`, the
RedHat-like transformation `setRepoEnabled` is the identity in both the enable
and the disable direction; yet the locator's header test accepts a header line
carrying trailing text (shown on `[foo] trailing...`), and on such a located
file the enable step reports already-in-desired-state and performs no write. -/
theorem c10_no_header_identity :
    (∀ (content repoID : String),
      (∀ l ∈ goSplitLines content, goTrimSpace l ≠ "[" ++ repoID ++ "]") →
      setRepoEnabled content repoID true = content
      ∧ setRepoEnabled content repoID false = content)
    ∧ matchesRepoID "[foo] trailing\nenabled=1\n" "foo" = true
    ∧ (∀ l ∈ goSplitLines "[foo] trailing\nenabled=1\n", goTrimSpace l ≠ "[foo]")
    ∧ (enableRepoDnfYumStep "[foo] trailing\nenabled=1\n" "foo").2 = false := by
  refine ⟨?_, by decide, by decide, by decide⟩
  intro content repoID h
  constructor
  · rw [setRepoEnabled, setRepoEnabledLines,
      setRepoGo_outside _ _ _ false h, goJoin_goSplit]
  · rw [setRepoEnabled, setRepoEnabledLines,
      setRepoGo_outside _ _ _ false h, goJoin_goSplit]

/-- C10 witness: the identity applied at a concrete content whose only header
line carries trailing text. -/
theorem c10_no_header_identity_witness :
    (∀ l ∈ goSplitLines "[foo] trailing\nenabled=1\n",
      goTrimSpace l ≠ "[" ++ "foo" ++ "]")
    ∧ (setRepoEnabled "[foo] trailing\nenabled=1\n" "foo" true
          = "[foo] trailing\nenabled=1\n"
      ∧ setRepoEnabled "[foo] trailing\nenabled=1\n" "foo" false
          = "[foo] trailing\nenabled=1\n") :=
  ⟨by decide,
    c10_no_header_identity.1 "[foo] trailing\nenabled=1\n" "foo" (by decide)⟩

/-! ### Claim C3 -/

/-- C3 counterexample: enabling id `a` in `[a]\nname=x\n` — a section whose
body has no enabled key — yields the lines `["[a]", "name=x", "", "enabled=1"]`:
the line immediately after the header is still `name=x`, not the inserted key,
refuting the claim that the key is inserted on the line immediately after the
section header. -/
theorem c3_counterexample :
    goSplitLines (setRepoEnabled "[a]\nname=x\n" "a" true)
      = ["[a]", "name=x", "", "enabled=1"]
    ∧ ("name=x" : String) ≠ "enabled=1" := by
  refine ⟨by decide, by decide⟩

/-- C3 amended: when the section `[repoID]` (header line `h`) has a body with
no enabled key and no nested bracket line, the key line is inserted at the END
of the section — immediately before the next bracket line `x`, or at the end
of the content when the section is last — and no line from the next section
header onward is affected (shown for contents whose other regions contain no
duplicate `[repoID]` header). -/
theorem c3_insert_at_section_end :
    ∀ (pre bodyL rest : List String) (h x repoID : String) (enable : Bool),
      (∀ l ∈ pre, goTrimSpace l ≠ "[" ++ repoID ++ "]") →
      goTrimSpace h = "[" ++ repoID ++ "]" →
      (∀ l ∈ bodyL, goStartsWith (goTrimSpace l) "[" = false ∧
        goStartsWith (goTrimSpace l) "enabled=" = false) →
      goStartsWith (goTrimSpace x) "[" = true →
      goTrimSpace x ≠ "[" ++ repoID ++ "]" →
      (∀ l ∈ rest, goTrimSpace l ≠ "[" ++ repoID ++ "]") →
      setRepoEnabledLines (pre ++ h :: (bodyL ++ x :: rest)) repoID enable
        = pre ++ h :: (bodyL ++
            ("enabled=" ++ (if enable then "1" else "0")) :: x :: rest)
      ∧ setRepoEnabledLines (pre ++ h :: bodyL) repoID enable
        = pre ++ h :: (bodyL ++ ["enabled=" ++ (if enable then "1" else "0")]) := by
  intro pre bodyL rest h x repoID enable hpre hh hbody hx hxne hrest
  constructor
  · rw [setRepoEnabledLines, setRepoGo_out_append _ _ pre _ false hpre]
    have hx2 : setRepoGo ("[" ++ repoID ++ "]") (if enable then "1" else "0")
        (x :: rest) true false
        = ("enabled=" ++ (if enable then "1" else "0")) :: x :: rest := by
      simp only [setRepoGo]
      rw [if_neg hxne]
      simp [hx, setRepoGo_outside _ _ rest false hrest]
    have hstep : setRepoGo ("[" ++ repoID ++ "]") (if enable then "1" else "0")
        (h :: (bodyL ++ x :: rest)) false false
        = h :: (bodyL ++
            ("enabled=" ++ (if enable then "1" else "0")) :: x :: rest) := by
      simp only [setRepoGo]
      rw [if_pos hh,
        setRepoGo_body_append _ _ (hdrStarts repoID) bodyL (x :: rest) hbody, hx2]
    rw [hstep]
  · rw [setRepoEnabledLines, setRepoGo_out_append _ _ pre _ false hpre]
    have hstep : setRepoGo ("[" ++ repoID ++ "]") (if enable then "1" else "0")
        (h :: bodyL) false false
        = h :: (bodyL ++ ["enabled=" ++ (if enable then "1" else "0")]) := by
      have hbody2 : setRepoGo ("[" ++ repoID ++ "]") (if enable then "1" else "0")
          bodyL true false
          = bodyL ++ ["enabled=" ++ (if enable then "1" else "0")] := by
        have h0 := setRepoGo_body_append ("[" ++ repoID ++ "]")
          (if enable then "1" else "0") (hdrStarts repoID) bodyL [] hbody
        rw [List.append_nil] at h0
        rw [h0]
        simp [setRepoGo]
      simp only [setRepoGo]
      rw [if_pos hh, hbody2]
    rw [hstep]

/-- C3 witness: the amended insertion shape applied at a concrete content with
a preamble, one body line, a following section and a trailing section body. -/
theorem c3_insert_at_section_end_witness :
    ((∀ l ∈ ["# comment"], goTrimSpace l ≠ "[" ++ "a" ++ "]")
      ∧ goTrimSpace "[a]" = "[" ++ "a" ++ "]"
      ∧ (∀ l ∈ ["name=x"], goStartsWith (goTrimSpace l) "[" = false ∧
          goStartsWith (goTrimSpace l) "enabled=" = false)
      ∧ goStartsWith (goTrimSpace "[b]") "[" = true
      ∧ goTrimSpace "[b]" ≠ "[" ++ "a" ++ "]"
      ∧ (∀ l ∈ ["enabled=0"], goTrimSpace l ≠ "[" ++ "a" ++ "]"))
    ∧ setRepoEnabledLines (["# comment"] ++ "[a]" :: (["name=x"] ++ "[b]" ::
          ["enabled=0"])) "a" true
        = ["# comment"] ++ "[a]" :: (["name=x"] ++
            ("enabled=" ++ (if true then "1" else "0")) :: "[b]" :: ["enabled=0"]) :=
  ⟨⟨by decide, by decide, by decide, by decide, by decide, by decide⟩,
    (c3_insert_at_section_end ["# comment"] ["name=x"] ["enabled=0"]
      "[a]" "[b]" "a" true (by decide) (by decide) (by decide) (by decide)
      (by decide) (by decide)).1⟩

/-! ### Claim C8 -/

/-- C8 counterexample: the Debian-like disable operation comments out the line
`host foo`, which carries no leading source-type token `deb` — it toggles a
line that is not a repository definition, refuting the claim that only
definition lines are toggled. -/
theorem c8_counterexample :
    goStartsWith (goTrimSpace "host foo") "deb" = false
    ∧ disableRepoAptContent "host foo\n" = ("# host foo\n", true)
    ∧ ("# host foo\n" : String) ≠ "host foo\n" := by
  refine ⟨by decide, by decide, by decide⟩

/-- C8 amended: both Debian-like operations act strictly line by line — the
lines of the output content are exactly the per-line images of the lines of
the input content; disable preserves byte-for-byte every blank line and every
comment line (and toggles exactly the non-empty non-comment lines, whatever
their leading token, by prefixing `"# "`); enable preserves byte-for-byte
every line whose trimmed form starts with neither `"# deb"` nor `"#deb"`. -/
theorem c8_frame_amended :
    ∀ content : String,
      goSplitLines (disableRepoAptContent content).1
        = (goSplitLines content).map disableAptLine
      ∧ goSplitLines (enableRepoAptContent content).1
        = (goSplitLines content).map enableAptLine
      ∧ ∀ l ∈ goSplitLines content,
          (((goTrimSpace l).data.isEmpty = true
            ∨ goStartsWith (goTrimSpace l) "#" = true) → disableAptLine l = l)
          ∧ ((goStartsWith (goTrimSpace l) "# deb" = false ∧
              goStartsWith (goTrimSpace l) "#deb" = false) → enableAptLine l = l)
          ∧ (((goTrimSpace l).data.isEmpty = false ∧
              goStartsWith (goTrimSpace l) "#" = false) →
                disableAptLine l = "# " ++ l) := by
  intro content
  refine ⟨disableRepoAptContent_lines content, enableRepoAptContent_lines content, ?_⟩
  intro l _
  refine ⟨?_, ?_, ?_⟩
  · intro hcase
    rcases hcase with h1 | h1 <;>
      rw [disableAptLine, if_neg (by simp [disableAptShouldComment, h1])]
  · intro hcase
    rw [enableAptLine,
      if_neg (by simp [enableAptShouldUncomment, hcase.1, hcase.2])]
  · intro hcase
    rw [disableAptLine,
      if_pos (by simp [disableAptShouldComment, hcase.1, hcase.2])]

/-- C8 witness: the amended frame property applied at a concrete two-line
content on its comment line. -/
theorem c8_frame_amended_witness :
    (goStartsWith (goTrimSpace "# note") "#" = true)
    ∧ disableAptLine "# note" = "# note" :=
  ⟨by decide,
    ((c8_frame_amended "deb http://x main\n# note\n").2.2 "# note"
      (by decide)).1 (Or.inr (by decide))⟩

/-! ### Claim C6 -/

/-- C6: for a repository file freshly written by the Debian-like add operation
from a single repository source line (one line starting with the source-type
token `deb`, containing no newline — hence initially enabled), disabling and
then enabling restores content byte-identical to the state immediately after
the add. -/
theorem c6_toggle_inverse :
    ∀ repoLine : String, goStartsWith repoLine "deb" = true →
      '\n' ∉ repoLine.data →
      (enableRepoAptContent
        (disableRepoAptContent (addRepoAptContent repoLine)).1).1
        = addRepoAptContent repoLine := by
  intro rl hdeb hnl
  obtain ⟨t, ht⟩ := (goStartsWith_true_iff rl "deb").mp hdeb
  have hld : rl.data = 'd' :: 'e' :: 'b' :: t := ht.symm
  have htrim : (goTrimSpace rl).data = 'd' :: trimRightL ('e' :: 'b' :: t) :=
    goTrimSpace_data_of_head 'd' _ rl hld (by decide)
  have hsplit1 : goSplitLines (addRepoAptContent rl) = [rl, ""] := by
    show (splitChar '\n' ((rl ++ "\n").data)).map String.mk = [rl, ""]
    have hd : (rl ++ "\n").data = rl.data ++ '\n' :: [] := rfl
    rw [hd, splitChar_append_cons '\n' rl.data [] hnl]
    rfl
  have hcond : disableAptShouldComment rl = true := by
    rw [disableAptShouldComment]
    have h1 : (goTrimSpace rl).data.isEmpty = false := by rw [htrim]; rfl
    have h2 : goStartsWith (goTrimSpace rl) "#" = false := by
      rw [goStartsWith_eq, htrim]
      show List.isPrefixOf ['#'] ('d' :: trimRightL ('e' :: 'b' :: t)) = false
      simp [List.isPrefixOf, show ('#' == 'd') = false by decide]
    rw [h1, h2]
    rfl
  have hdis1 : (disableRepoAptContent (addRepoAptContent rl)).1
      = goJoinLines ["# " ++ rl, ""] := by
    show goJoinLines
      ((goSplitLines (addRepoAptContent rl)).map disableAptLine) = _
    rw [hsplit1]
    have hmap : ([rl, ""]).map disableAptLine = ["# " ++ rl, ""] := by
      simp [disableAptLine, hcond, show disableAptShouldComment "" = false by decide]
    rw [hmap]
  have hsplit2 : goSplitLines (goJoinLines ["# " ++ rl, ""]) = ["# " ++ rl, ""] := by
    apply goSplit_goJoin _ (by simp)
    intro y hy
    rcases List.mem_cons.mp hy with rfl | hy2
    · have h3 := disableAptLine_no_newline rl hnl
      rw [disableAptLine, if_pos hcond] at h3
      exact h3
    · rcases List.mem_cons.mp hy2 with rfl | hy3
      · simp
      · simp at hy3
  have h5 : trimRightL rl.data = 'd' :: 'e' :: 'b' :: trimRightL t := by
    rw [hld, trimRightL_cons_of_not_space _ _ (by decide),
      trimRightL_cons_of_not_space _ _ (by decide),
      trimRightL_cons_of_not_space _ _ (by decide)]
  have hen1 : enableAptLine ("# " ++ rl) = rl := by
    have htr2 : (goTrimSpace ("# " ++ rl)).data
        = '#' :: trimRightL (' ' :: rl.data) :=
      goTrimSpace_data_of_head '#' _ _ rfl (by decide)
    have h6 : trimRightL (' ' :: rl.data) = ' ' :: trimRightL rl.data := by
      rw [trimRightL_cons, h5]
      simp
    have hA : goStartsWith (goTrimSpace ("# " ++ rl)) "# deb" = true := by
      rw [goStartsWith_eq, htr2, h6, h5]
      show List.isPrefixOf ['#', ' ', 'd', 'e', 'b']
        ('#' :: ' ' :: 'd' :: 'e' :: 'b' :: trimRightL t) = true
      simp [List.isPrefixOf]
    have hcond3 : enableAptShouldUncomment ("# " ++ rl) = true := by
      rw [enableAptShouldUncomment, hA]
      rfl
    rw [enableAptLine, if_pos hcond3]
    have hin : goTrimLeading ("# " ++ rl) "# " = rl := by
      rw [goTrimLeading, if_pos]
      · rfl
      · show List.isPrefixOf ['#', ' '] ('#' :: ' ' :: rl.data) = true
        simp [List.isPrefixOf]
    rw [hin, goTrimLeading, if_neg]
    show ¬ (List.isPrefixOf ['#'] rl.data = true)
    rw [hld]
    simp [List.isPrefixOf, show ('#' == 'd') = false by decide]
  show goJoinLines
    ((goSplitLines (disableRepoAptContent (addRepoAptContent rl)).1).map
      enableAptLine) = addRepoAptContent rl
  rw [hdis1, hsplit2]
  have hmap2 : (["# " ++ rl, ""]).map enableAptLine = [rl, ""] := by
    simp [hen1, show enableAptLine "" = "" by decide]
  rw [hmap2]
  rfl

/-- C6 witness: the round trip at the concrete source line
`deb http://x main`. -/
theorem c6_toggle_inverse_witness :
    (goStartsWith "deb http://x main" "deb" = true
      ∧ '\n' ∉ ("deb http://x main").data)
    ∧ (enableRepoAptContent
        (disableRepoAptContent (addRepoAptContent "deb http://x main")).1).1
        = addRepoAptContent "deb http://x main" :=
  ⟨⟨by decide, by decide⟩,
    c6_toggle_inverse "deb http://x main" (by decide) (by decide)⟩
